import Mathlib

/-!
# Verification of the AOCL-DA CMake preset generator

A shallow embedding of `cmake/presets/preset_generator.py` together with
proofs about its configuration-resolution, directory-name derivation,
preset-document construction and batch-enumeration logic.

Python strings are modelled by `String`, the ordered option registry
`PRESET_OPTIONS` by the inductive `Category` together with `categoryOrder`
and `options`, the category→token dictionary by the structure `Config`
(the sentinel is the literal string "empty", as in the source), Python
exceptions by `Except`, and `sys.exit(1)` together with file-system
effects by explicit outcome types.  Python's `name.split('-')` is
embedded as `String.split name (fun c => c == '-')`, which has the same
semantics (splitting on every occurrence of the hyphen character and
returning `[""]` for the empty string).
-/

/-- The configuration axes, in the declaration order of `PRESET_OPTIONS`. -/
inductive Category where
  | platform
  | generator
  | compiler
  | threading
  | int_size
  | lib_type
  | build_python
  | arch
  | build_type
  | sanitizer
  | mem_sanitizer
  | code_coverage
  | valgrind
  | documentation
  | libmem
deriving DecidableEq, Fintype

/-- Declaration order of the keys of `PRESET_OPTIONS` (Python dicts preserve
insertion order, which the generator relies on). -/
def categoryOrder : List Category :=
  [.platform, .generator, .compiler, .threading, .int_size, .lib_type,
   .build_python, .arch, .build_type, .sanitizer, .mem_sanitizer,
   .code_coverage, .valgrind, .documentation, .libmem]

/-- The legal token set of each category (first component of each
`PRESET_OPTIONS` entry). -/
def options : Category → List String
  | .platform => ["linux", "win"]
  | .generator => ["make", "ninja", "msvc"]
  | .compiler => ["gcc", "clang"]
  | .threading => ["st", "mt"]
  | .int_size => ["lp64", "ilp64"]
  | .lib_type => ["static", "shared"]
  | .build_python => ["python"]
  | .arch => ["native", "dynamic", "znver2", "znver3", "znver4", "znver5"]
  | .build_type => ["release", "debug", "relwithdebinfo"]
  | .sanitizer => ["asan"]
  | .mem_sanitizer => ["memsan"]
  | .code_coverage => ["coverage"]
  | .valgrind => ["valgrind"]
  | .documentation => ["doc"]
  | .libmem => ["libmem"]

/-- The category→token dictionary built by `parse_preset_name` (one string
field per key of `PRESET_OPTIONS`; unset categories hold `"empty"`). -/
structure Config where
  platform : String
  generator : String
  compiler : String
  threading : String
  int_size : String
  lib_type : String
  build_python : String
  arch : String
  build_type : String
  sanitizer : String
  mem_sanitizer : String
  code_coverage : String
  valgrind : String
  documentation : String
  libmem : String
deriving DecidableEq

/-- Dictionary read `components[category]`. -/
def Config.get (s : Config) : Category → String
  | .platform => s.platform
  | .generator => s.generator
  | .compiler => s.compiler
  | .threading => s.threading
  | .int_size => s.int_size
  | .lib_type => s.lib_type
  | .build_python => s.build_python
  | .arch => s.arch
  | .build_type => s.build_type
  | .sanitizer => s.sanitizer
  | .mem_sanitizer => s.mem_sanitizer
  | .code_coverage => s.code_coverage
  | .valgrind => s.valgrind
  | .documentation => s.documentation
  | .libmem => s.libmem

/-- Dictionary write `components[category] = v`. -/
def Config.set (s : Config) : Category → String → Config
  | .platform, v => { s with platform := v }
  | .generator, v => { s with generator := v }
  | .compiler, v => { s with compiler := v }
  | .threading, v => { s with threading := v }
  | .int_size, v => { s with int_size := v }
  | .lib_type, v => { s with lib_type := v }
  | .build_python, v => { s with build_python := v }
  | .arch, v => { s with arch := v }
  | .build_type, v => { s with build_type := v }
  | .sanitizer, v => { s with sanitizer := v }
  | .mem_sanitizer, v => { s with mem_sanitizer := v }
  | .code_coverage, v => { s with code_coverage := v }
  | .valgrind, v => { s with valgrind := v }
  | .documentation, v => { s with documentation := v }
  | .libmem, v => { s with libmem := v }

/-- `result = {category: "empty" for category in PRESET_OPTIONS}`. -/
def emptyConfig : Config :=
  ⟨"empty", "empty", "empty", "empty", "empty", "empty", "empty", "empty",
   "empty", "empty", "empty", "empty", "empty", "empty", "empty"⟩

/-- The validation-error taxonomy raised (as `ValueError`) by
`parse_preset_name`. -/
inductive ParseError where
  | emptyName
  | unrecognizedToken (part : String)
  | ambiguousToken (part : String) (cats : List Category)
  | duplicateCategory (cat : Category) (old new : String)
  | incompatiblePlatformCompiler
  | staticPythonConflict
deriving DecidableEq

instance {ε α : Type} [DecidableEq ε] [DecidableEq α] : DecidableEq (Except ε α) := fun a b =>
  match a, b with
  | .error e, .error e' =>
    if h : e = e' then .isTrue (by rw [h]) else .isFalse (by simp [h])
  | .ok x, .ok y =>
    if h : x = y then .isTrue (by rw [h]) else .isFalse (by simp [h])
  | .error _, .ok _ => .isFalse (by simp)
  | .ok _, .error _ => .isFalse (by simp)

/-- Python's `preset_name.split('-')`: split on every occurrence of the
hyphen, keeping empty parts, with `"".split('-') = [""]`.  It is defined on
the character list (where `List.splitOn` is structurally recursive and hence
computable by the kernel); `pySplitHyphen_eq_split` checks it against Lean's
builtin `String.split`, which has the same semantics. -/
def pySplitHyphen (s : String) : List String :=
  (s.data.splitOn '-').map String.mk

theorem pySplitHyphen_eq_split (s : String) :
    pySplitHyphen s = s.split (fun c => c == '-') := by
  rw [String.split_of_valid]
  rfl

/-- The token-matching loop of `parse_preset_name`: for each part, collect
every category whose legal set contains it, then fail on ambiguity,
duplicate, or no match. -/
def parseLoop : List String → Config → Except ParseError Config
  | [], result => .ok result
  | part :: rest, result =>
    let matched := categoryOrder.filter (fun cat => decide (part ∈ options cat))
    match matched with
    | [] => .error (.unrecognizedToken part)
    | [cat] =>
      if result.get cat ≠ "empty" then
        .error (.duplicateCategory cat (result.get cat) part)
      else
        parseLoop rest (result.set cat part)
    | _ => .error (.ambiguousToken part matched)

/-- The two final validations of `parse_preset_name`, applied to the
(possibly rewritten) result dictionary. -/
def postCheck (result : Config) : Except ParseError Config :=
  if result.get .platform = "win" ∧ result.get .compiler ≠ "empty" then
    .error .incompatiblePlatformCompiler
  else if result.get .lib_type = "static" ∧ result.get .build_python = "python" then
    .error .staticPythonConflict
  else
    .ok result

/-- The post-processing tail of `parse_preset_name`: synthesize `msvc` as
generator under Windows (rebinding `result`, as the source does), then apply
the platform/compiler and static/python validations. -/
def postValidate (result : Config) : Except ParseError Config :=
  postCheck (if result.get .platform = "win" then result.set .generator "msvc" else result)

/-- `parse_preset_name` from the source: split on hyphens, run the matching
loop, then post-process and validate. -/
def parse_preset_name (preset_name : String) : Except ParseError Config :=
  let parts := pySplitHyphen preset_name
  if parts = [] then .error .emptyName
  else
    match parseLoop parts emptyConfig with
    | .error e => .error e
    | .ok result => postValidate result

/-! ### Basic facts about the option registry and `Config` -/

theorem categoryOrder_nodup : categoryOrder.Nodup := by decide

theorem mem_categoryOrder (c : Category) : c ∈ categoryOrder := by cases c <;> decide

/-- The token sets of distinct categories are disjoint (the registry as
authored is collision-free). -/
theorem options_disjoint :
    ∀ c1 c2 : Category, c1 ≠ c2 → ∀ t ∈ options c1, t ∉ options c2 := by decide

/-- Every legal token is nonempty, differs from the sentinel, and contains
no hyphen. -/
theorem options_token_sane :
    ∀ c : Category, ∀ t ∈ options c, t ≠ "" ∧ t ≠ "empty" ∧ '-' ∉ t.data := by decide

theorem mem_options_unique {t : String} {c1 c2 : Category}
    (h1 : t ∈ options c1) (h2 : t ∈ options c2) : c1 = c2 := by
  by_contra h
  exact options_disjoint c1 c2 h t h1 h2

theorem Config.get_set_same (s : Config) (c : Category) (v : String) :
    (s.set c v).get c = v := by
  cases c <;> rfl

theorem Config.get_set_ne (s : Config) {c c' : Category} (v : String) (h : c ≠ c') :
    (s.set c v).get c' = s.get c' := by
  cases c <;> cases c' <;> first | rfl | exact absurd rfl h

theorem Config.get_emptyConfig (c : Category) : emptyConfig.get c = "empty" := by
  cases c <;> rfl

theorem Config.ext_get {a b : Config} (h : ∀ c, a.get c = b.get c) : a = b := by
  cases a
  cases b
  simp only [Config.mk.injEq]
  exact ⟨h .platform, h .generator, h .compiler, h .threading, h .int_size, h .lib_type,
    h .build_python, h .arch, h .build_type, h .sanitizer, h .mem_sanitizer,
    h .code_coverage, h .valgrind, h .documentation, h .libmem⟩

/-! ### Joining and splitting on hyphens are mutually inverse -/

theorem intercalate_go_data (sep : String) (l : List String) (acc : String) :
    (String.intercalate.go acc sep l).data
      = acc.data ++ (l.map (fun a => sep.data ++ a.data)).flatten := by
  induction l generalizing acc with
  | nil => simp [String.intercalate.go]
  | cons a as ih => simp [String.intercalate.go, ih]

theorem intercalate_cons_flatten {α : Type} (sep x : List α) (xs : List (List α)) :
    List.intercalate sep (x :: xs) = x ++ (xs.map (fun y => sep ++ y)).flatten := by
  induction xs generalizing x with
  | nil => simp [List.intercalate]
  | cons y ys ih =>
    simp only [List.intercalate] at ih ⊢
    rw [List.intersperse_cons_cons]
    simp only [List.flatten_cons, List.map_cons]
    rw [show (List.intersperse sep (y :: ys)).flatten = y ++ (ys.map (fun z => sep ++ z)).flatten
        from ih y]
    simp [List.append_assoc]

theorem intercalate_data (sep : String) (l : List String) :
    (String.intercalate sep l).data = List.intercalate sep.data (l.map String.data) := by
  cases l with
  | nil => rfl
  | cons a as =>
    show (String.intercalate.go a sep as).data = _
    rw [intercalate_go_data, List.map_cons, intercalate_cons_flatten]
    simp only [List.map_map]
    rfl

/-- Splitting `"-".join(parts)` on hyphens recovers `parts`, whenever the
parts are nonempty-as-a-list and hyphen-free. -/
theorem pySplitHyphen_intercalate (parts : List String)
    (hne : parts ≠ []) (hchar : ∀ s ∈ parts, '-' ∉ s.data) :
    pySplitHyphen (String.intercalate "-" parts) = parts := by
  unfold pySplitHyphen
  rw [intercalate_data]
  rw [show ("-" : String).data = ['-'] from rfl]
  rw [List.splitOn_intercalate (parts.map String.data) '-' ?hx ?hls]
  · rw [List.map_map]
    have hid : (String.mk ∘ String.data) = id := funext fun s => by cases s; rfl
    rw [hid, List.map_id]
  case hx =>
    intro l hl
    rw [List.mem_map] at hl
    obtain ⟨s, hs, rfl⟩ := hl
    exact hchar s hs
  case hls =>
    simpa using hne

/-! ### Correctness of the token-matching loop on disjoint token lists -/

/-- A token that belongs to `cat`'s legal set matches exactly `cat`. -/
theorem filter_matched_eq {t : String} {cat : Category} (ht : t ∈ options cat) :
    categoryOrder.filter (fun c => decide (t ∈ options c)) = [cat] := by
  have key : ∀ c : Category, decide (t ∈ options c) = decide (c = cat) := by
    intro c
    by_cases h : t ∈ options c
    · have hc : c = cat := mem_options_unique h ht
      subst hc
      simp [h]
    · have hne : c ≠ cat := fun he => h (he ▸ ht)
      simp [h, hne]
  rw [show (fun c => decide (t ∈ options c)) = (fun c : Category => decide (c = cat))
      from funext key]
  cases cat <;> rfl

/-- Record a list of (category, token) choices in a config, left to right. -/
def setAll (acc : Config) : List (Category × String) → Config
  | [] => acc
  | (c, v) :: rest => setAll (acc.set c v) rest

theorem get_setAll_not_mem {toks : List (Category × String)} {c : Category}
    (h : c ∉ toks.map Prod.fst) (acc : Config) :
    (setAll acc toks).get c = acc.get c := by
  induction toks generalizing acc with
  | nil => rfl
  | cons p rest ih =>
    obtain ⟨c', v⟩ := p
    simp only [List.map_cons, List.mem_cons, not_or] at h
    show (setAll (acc.set c' v) rest).get c = acc.get c
    rw [ih h.2, Config.get_set_ne _ _ (fun he => h.1 he.symm)]

theorem get_setAll_mem {toks : List (Category × String)}
    (hnd : (toks.map Prod.fst).Nodup) {c : Category} {v : String}
    (h : (c, v) ∈ toks) (acc : Config) :
    (setAll acc toks).get c = v := by
  induction toks generalizing acc with
  | nil => cases h
  | cons p rest ih =>
    obtain ⟨c', v'⟩ := p
    simp only [List.map_cons, List.nodup_cons] at hnd
    rcases List.mem_cons.1 h with heq | hmem
    · have h1 : c = c' := congrArg Prod.fst heq
      have h2 : v = v' := congrArg Prod.snd heq
      subst h1
      subst h2
      show (setAll (acc.set c v) rest).get c = v
      rw [get_setAll_not_mem hnd.1, Config.get_set_same]
    · exact ih hnd.2 hmem (acc.set c' v')

/-- The matching loop succeeds on any token list drawn from pairwise
distinct categories, provided the accumulator has those categories unset,
and records exactly the supplied tokens. -/
theorem parseLoop_ok (toks : List (Category × String)) :
    ∀ acc : Config,
      (∀ p ∈ toks, p.2 ∈ options p.1) →
      (toks.map Prod.fst).Nodup →
      (∀ p ∈ toks, acc.get p.1 = "empty") →
      parseLoop (toks.map Prod.snd) acc = .ok (setAll acc toks) := by
  induction toks with
  | nil => intro acc _ _ _; rfl
  | cons p rest ih =>
    intro acc hopt hnd hacc
    obtain ⟨c, v⟩ := p
    have hv : v ∈ options c := hopt (c, v) (List.mem_cons_self _ _)
    have hmatch := filter_matched_eq hv
    simp only [List.map_cons, List.nodup_cons] at hnd
    show parseLoop (v :: rest.map Prod.snd) acc = _
    rw [parseLoop, hmatch]
    show (if acc.get c ≠ "empty" then
            Except.error (ParseError.duplicateCategory c (acc.get c) v)
          else parseLoop (List.map Prod.snd rest) (acc.set c v))
        = Except.ok (setAll acc ((c, v) :: rest))
    rw [if_neg (by simp only [ne_eq, not_not]; exact hacc (c, v) (List.mem_cons_self _ _))]
    show parseLoop (rest.map Prod.snd) (acc.set c v) = .ok (setAll (acc.set c v) rest)
    refine ih (acc.set c v) (fun q hq => hopt q (List.mem_cons_of_mem _ hq)) hnd.2 ?_
    intro q hq
    have hne : c ≠ q.1 :=
      fun he => hnd.1 (by rw [he]; exact List.mem_map_of_mem Prod.fst hq)
    rw [Config.get_set_ne _ _ hne]
    exact hacc q (List.mem_cons_of_mem _ hq)

/-! ### Well-formed selections and parsing their joined names -/

/-- The categories a selection sets, in declaration order.  (A selection is
itself a `Config`: each category holds a token or the sentinel.) -/
def chosenCats (sel : Config) : List Category :=
  categoryOrder.filter (fun c => decide (sel.get c ≠ "empty"))

/-- The (category, token) pairs of a selection, in declaration order. -/
def selToks (sel : Config) : List (Category × String) :=
  (chosenCats sel).map (fun c => (c, sel.get c))

/-- The preset name built by joining the selection's tokens, one legal token
per chosen category, in declaration order. -/
def nameOfSel (sel : Config) : String :=
  String.intercalate "-" ((chosenCats sel).map sel.get)

/-- Every non-sentinel entry is a legal token of its category. -/
def ValidSel (sel : Config) : Prop :=
  ∀ c : Category, sel.get c = "empty" ∨ sel.get c ∈ options c

/-- Well-formedness of a selection: legal tokens, at least one category
chosen, and the platform/compiler and static/python exclusivity rules. -/
def WellFormedSel (sel : Config) : Prop :=
  ValidSel sel ∧ chosenCats sel ≠ [] ∧
  (sel.get .platform = "win" → sel.get .compiler = "empty") ∧
  ¬(sel.get .lib_type = "static" ∧ sel.get .build_python = "python")

instance (sel : Config) : Decidable (ValidSel sel) := by
  unfold ValidSel
  infer_instance

instance (sel : Config) : Decidable (WellFormedSel sel) := by
  unfold WellFormedSel
  infer_instance

/-- What the parser actually returns for a well-formed selection: the
selection itself, except that the generator is forced to `msvc` whenever the
platform is `win`. -/
def postProcess (sel : Config) : Config :=
  if sel.get .platform = "win" then sel.set .generator "msvc" else sel

theorem mem_chosenCats {sel : Config} {c : Category} :
    c ∈ chosenCats sel ↔ sel.get c ≠ "empty" := by
  unfold chosenCats
  rw [List.mem_filter]
  simp [mem_categoryOrder]

theorem map_fst_selToks (sel : Config) :
    (selToks sel).map Prod.fst = chosenCats sel := by
  unfold selToks
  rw [List.map_map]
  exact List.map_id _

theorem map_snd_selToks (sel : Config) :
    (selToks sel).map Prod.snd = (chosenCats sel).map sel.get := by
  unfold selToks
  rw [List.map_map]
  rfl

theorem setAll_selToks (sel : Config) : setAll emptyConfig (selToks sel) = sel := by
  apply Config.ext_get
  intro c
  by_cases h : sel.get c = "empty"
  · rw [get_setAll_not_mem, Config.get_emptyConfig, h]
    rw [map_fst_selToks, mem_chosenCats]
    simpa using h
  · have hnd : ((selToks sel).map Prod.fst).Nodup := by
      rw [map_fst_selToks]
      exact List.Nodup.filter _ categoryOrder_nodup
    have hmem : (c, sel.get c) ∈ selToks sel :=
      List.mem_map_of_mem _ (mem_chosenCats.2 h)
    exact get_setAll_mem hnd hmem emptyConfig

theorem chosenCats_tokens {sel : Config} (hvalid : ValidSel sel) :
    ∀ c ∈ chosenCats sel, sel.get c ∈ options c := by
  intro c hc
  rcases hvalid c with h | h
  · exact absurd h (mem_chosenCats.1 hc)
  · exact h

theorem postProcess_get (sel : Config) (c : Category) :
    (postProcess sel).get c
      = if c = .generator ∧ sel.get .platform = "win" then "msvc" else sel.get c := by
  unfold postProcess
  by_cases hwin : sel.get .platform = "win"
  · rw [if_pos hwin]
    by_cases hc : c = .generator
    · subst hc
      rw [Config.get_set_same, if_pos ⟨rfl, hwin⟩]
    · rw [Config.get_set_ne _ _ (fun he => hc he.symm),
        if_neg (fun hand => hc hand.1)]
  · rw [if_neg hwin, if_neg (fun hand => hwin hand.2)]

theorem postValidate_wellFormed {sel : Config}
    (hwc : sel.get .platform = "win" → sel.get .compiler = "empty")
    (hsp : ¬(sel.get .lib_type = "static" ∧ sel.get .build_python = "python")) :
    postValidate sel = .ok (postProcess sel) := by
  unfold postValidate postProcess postCheck
  by_cases hwin : sel.get .platform = "win"
  · rw [if_pos hwin]
    have hplat : (sel.set .generator "msvc").get .platform = sel.get .platform :=
      Config.get_set_ne _ _ (by decide)
    have hcomp : (sel.set .generator "msvc").get .compiler = sel.get .compiler :=
      Config.get_set_ne _ _ (by decide)
    have hlib : (sel.set .generator "msvc").get .lib_type = sel.get .lib_type :=
      Config.get_set_ne _ _ (by decide)
    have hpy : (sel.set .generator "msvc").get .build_python = sel.get .build_python :=
      Config.get_set_ne _ _ (by decide)
    rw [if_neg (fun hand => by rw [hcomp, hwc hwin] at hand; exact hand.2 rfl)]
    rw [if_neg (fun hand => hsp ⟨hlib ▸ hand.1, hpy ▸ hand.2⟩)]
  · rw [if_neg hwin]
    rw [if_neg (fun hand => hwin hand.1)]
    rw [if_neg hsp]

/-- Parsing the joined name of a well-formed selection succeeds and returns
exactly the post-processed selection. -/
theorem parse_nameOfSel {sel : Config} (h : WellFormedSel sel) :
    parse_preset_name (nameOfSel sel) = .ok (postProcess sel) := by
  obtain ⟨hvalid, hne, hwc, hsp⟩ := h
  have htoks := chosenCats_tokens hvalid
  have hsplit : pySplitHyphen (nameOfSel sel) = (chosenCats sel).map sel.get := by
    apply pySplitHyphen_intercalate
    · simpa using hne
    · intro s hs
      obtain ⟨c, hc, rfl⟩ := List.mem_map.1 hs
      exact (options_token_sane c _ (htoks c hc)).2.2
  have hloop : parseLoop ((chosenCats sel).map sel.get) emptyConfig = .ok sel := by
    rw [← map_snd_selToks]
    rw [parseLoop_ok (selToks sel) emptyConfig ?hopt ?hnd ?hacc, setAll_selToks]
    case hopt =>
      intro p hp
      obtain ⟨c, hc, rfl⟩ := List.mem_map.1 hp
      exact htoks c hc
    case hnd =>
      rw [map_fst_selToks]
      exact List.Nodup.filter _ categoryOrder_nodup
    case hacc =>
      intro p _
      exact Config.get_emptyConfig _
  have hne' : (chosenCats sel).map sel.get ≠ [] := by simpa using hne
  simp only [parse_preset_name]
  rw [hsplit, if_neg hne', hloop]
  exact postValidate_wellFormed hwc hsp

/-! ### Parser inversion lemmas -/

/-- Splitting never yields zero tokens (Python's `"".split('-')` is `[""]`). -/
theorem pySplitHyphen_ne_nil (s : String) : pySplitHyphen s ≠ [] := by
  unfold pySplitHyphen
  intro h
  rcases hs : s.data.splitOn '-' with _ | _
  · exact List.splitOnP_ne_nil _ _ hs
  · rw [hs] at h
    exact List.noConfusion h

theorem parseLoop_ne_emptyName :
    ∀ (parts : List String) (acc : Config), parseLoop parts acc ≠ .error .emptyName := by
  intro parts
  induction parts with
  | nil =>
    intro acc h
    exact Except.noConfusion h
  | cons part rest ih =>
    intro acc h
    rw [parseLoop] at h
    rcases hm : categoryOrder.filter (fun cat => decide (part ∈ options cat)) with _ | ⟨c, cs⟩
    · rw [hm] at h
      cases h
    · rcases cs with _ | ⟨c', cs'⟩
      · rw [hm] at h
        have h' : (if acc.get c ≠ "empty" then
              Except.error (ParseError.duplicateCategory c (acc.get c) part)
            else parseLoop rest (acc.set c part)) = Except.error ParseError.emptyName := h
        by_cases hc : acc.get c ≠ "empty"
        · rw [if_pos hc] at h'
          cases h'
        · rw [if_neg hc] at h'
          exact ih _ h'
      · rw [hm] at h
        cases h

theorem postCheck_ne_emptyName (res : Config) : postCheck res ≠ .error .emptyName := by
  unfold postCheck
  by_cases hA : res.get .platform = "win" ∧ res.get .compiler ≠ "empty"
  · rw [if_pos hA]
    intro h
    injection h with h'
    exact ParseError.noConfusion h'
  · rw [if_neg hA]
    by_cases hB : res.get .lib_type = "static" ∧ res.get .build_python = "python"
    · rw [if_pos hB]
      intro h
      injection h with h'
      exact ParseError.noConfusion h'
    · rw [if_neg hB]
      intro h
      exact Except.noConfusion h

theorem postCheck_ok_inv {res r : Config} (h : postCheck res = .ok r) : r = res := by
  unfold postCheck at h
  by_cases hA : res.get .platform = "win" ∧ res.get .compiler ≠ "empty"
  · rw [if_pos hA] at h
    cases h
  · rw [if_neg hA] at h
    by_cases hB : res.get .lib_type = "static" ∧ res.get .build_python = "python"
    · rw [if_pos hB] at h
      cases h
    · rw [if_neg hB] at h
      injection h with h'
      exact h'.symm

theorem postValidate_ne_emptyName (res : Config) : postValidate res ≠ .error .emptyName := by
  unfold postValidate
  exact postCheck_ne_emptyName _

theorem postValidate_ok_inv {res r : Config} (h : postValidate res = .ok r) :
    r = (if res.get .platform = "win" then res.set .generator "msvc" else res) := by
  unfold postValidate at h
  exact postCheck_ok_inv h

/-- Inversion: a successful parse factors through the matching loop and the
post-processing tail. -/
theorem parse_ok_inv {name : String} {r : Config}
    (h : parse_preset_name name = .ok r) :
    ∃ res, parseLoop (pySplitHyphen name) emptyConfig = .ok res ∧ postValidate res = .ok r := by
  simp only [parse_preset_name] at h
  rw [if_neg (pySplitHyphen_ne_nil name)] at h
  rcases hq : parseLoop (pySplitHyphen name) emptyConfig with e | res
  · rw [hq] at h
    cases h
  · rw [hq] at h
    exact ⟨res, rfl, h⟩

/-! ### C1: parse of well-formed joined names -/

/-- **C1 (amended).** For every well-formed preset name built by joining one
legal token per chosen category (respecting the platform/compiler and
static/python exclusivity rules) in category declaration order, `parse`
succeeds, and the resolved configuration maps each chosen category to
exactly the token supplied and every other category to the sentinel —
except that the generator category holds the synthesized value `"msvc"`
whenever the platform is `"win"`, overriding any supplied generator token. -/
theorem C1_parse_wellformed_selection {sel : Config} (h : WellFormedSel sel) :
    parse_preset_name (nameOfSel sel) = .ok (postProcess sel) ∧
    ∀ c : Category, (postProcess sel).get c
      = if c = .generator ∧ sel.get .platform = "win" then "msvc" else sel.get c :=
  ⟨parse_nameOfSel h, postProcess_get sel⟩

/-- The selection choosing only `platform = "win"`. -/
def selWinOnly : Config := emptyConfig.set .platform "win"

/-- **C1 counterexample.** The selection choosing only `platform = "win"` is
well-formed and its joined name is `"win"`, yet parsing does not return the
supplied tokens with all other categories sentinel: the generator category
comes back `"msvc"`. -/
theorem C1_counterexample :
    WellFormedSel selWinOnly ∧ nameOfSel selWinOnly = "win" ∧
    parse_preset_name (nameOfSel selWinOnly) ≠ Except.ok selWinOnly ∧
    parse_preset_name (nameOfSel selWinOnly)
      = Except.ok (selWinOnly.set .generator "msvc") :=
  ⟨by decide, by decide, by decide, by decide⟩

/-- The selection choosing `platform = "linux"` and `compiler = "gcc"`. -/
def selLinuxGcc : Config := (emptyConfig.set .platform "linux").set .compiler "gcc"

theorem C1_witness :
    WellFormedSel selLinuxGcc ∧
    (parse_preset_name (nameOfSel selLinuxGcc) = .ok (postProcess selLinuxGcc) ∧
     ∀ c : Category, (postProcess selLinuxGcc).get c
       = if c = .generator ∧ selLinuxGcc.get .platform = "win" then "msvc"
         else selLinuxGcc.get c) :=
  ⟨by decide, C1_parse_wellformed_selection (by decide)⟩

/-! ### C3: behaviour on the empty name -/

/-- **C3 (code bug).** `parse("")` does not fail with `EmptyName`: splitting
always yields at least one token (`"".split('-') = [""]` in Python), so the
`EmptyName` guard in the source is unreachable, and the empty name instead
fails with `UnrecognizedToken` naming the empty token.  No input at all can
produce the `EmptyName` error. -/
theorem C3_empty_name_behaviour :
    parse_preset_name "" = .error (.unrecognizedToken "") ∧
    (∀ name : String, pySplitHyphen name ≠ []) ∧
    (∀ name : String, parse_preset_name name ≠ .error .emptyName) := by
  refine ⟨by decide, pySplitHyphen_ne_nil, ?_⟩
  intro name h
  simp only [parse_preset_name] at h
  rw [if_neg (pySplitHyphen_ne_nil name)] at h
  rcases hq : parseLoop (pySplitHyphen name) emptyConfig with e | res
  · rw [hq] at h
    have he : e = .emptyName := (Except.error.injEq .. ▸ h)
    exact parseLoop_ne_emptyName _ _ (he ▸ hq)
  · rw [hq] at h
    exact postValidate_ne_emptyName res h

/-! ### C6: the generator is forced to msvc under Windows -/

/-- **C6.** Whenever a parse succeeds with the platform resolved to
`"win"`, the generator category of the resolved configuration equals
`"msvc"`, regardless of which (if any) generator token appeared in the
name. -/
theorem C6_generator_forced_on_win {name : String} {r : Config}
    (h : parse_preset_name name = .ok r) (hw : r.get .platform = "win") :
    r.get .generator = "msvc" := by
  obtain ⟨res, _, hpost⟩ := parse_ok_inv h
  have hr := postValidate_ok_inv hpost
  by_cases hwin : res.get .platform = "win"
  · rw [hr, if_pos hwin, Config.get_set_same]
  · rw [hr, if_neg hwin] at hw
    exact absurd hw hwin

/-- The configuration parsed from `"win-st"`. -/
def cfgWinSt : Config :=
  ((emptyConfig.set .platform "win").set .threading "st").set .generator "msvc"

theorem C6_generator_forced_on_win_witness :
    parse_preset_name "win-st" = Except.ok cfgWinSt ∧
    cfgWinSt.get .platform = "win" ∧ cfgWinSt.get .generator = "msvc" :=
  ⟨by decide, by decide,
    @C6_generator_forced_on_win "win-st" cfgWinSt (by decide) (by decide)⟩

/-! ### Directory-name derivation -/

/-- `generate_build_dir_name`: hyphen-join the non-empty components in
declaration order, skipping the generator when the platform is `win`. -/
def generate_build_dir_name (components : Config) : String :=
  let parts := categoryOrder.foldl
    (fun parts category =>
      if components.get category ≠ "empty" then
        if category = .generator ∧ components.get .platform = "win" then parts
        else parts ++ [components.get category]
      else parts) []
  String.intercalate "-" parts

/-- The categories skipped by `generate_install_dir_name`. -/
def skip_categories : List Category :=
  [.int_size, .lib_type, .build_python, .documentation, .generator, .threading]

/-- `generate_install_dir_name`: hyphen-join the non-empty components in
declaration order, additionally skipping `skip_categories`. -/
def generate_install_dir_name (components : Config) : String :=
  let parts := categoryOrder.foldl
    (fun parts category =>
      if category ∈ skip_categories then parts
      else if components.get category ≠ "empty" then parts ++ [components.get category]
      else parts) []
  String.intercalate "-" parts

/-- Appending-style folds over the category list are filter-then-map. -/
theorem foldl_append_filter (f : Category → String) (p : Category → Bool) :
    ∀ (l : List Category) (acc : List String),
      l.foldl (fun parts cat => if p cat then parts ++ [f cat] else parts) acc
        = acc ++ (l.filter p).map f := by
  intro l
  induction l with
  | nil =>
    intro acc
    simp
  | cons c cs ih =>
    intro acc
    rw [List.foldl_cons]
    by_cases h : p c
    · rw [if_pos h, ih, List.filter_cons_of_pos h]
      simp
    · rw [if_neg h, ih, List.filter_cons_of_neg (by simpa using h)]

/-- **C7.** `generate_build_dir_name` returns the hyphen-joined
concatenation, in category declaration order, of every non-sentinel token,
except that the generator token is omitted entirely when the platform is
`"win"`. -/
theorem C7_build_dir_name (c : Config) :
    generate_build_dir_name c
      = String.intercalate "-"
          ((categoryOrder.filter (fun cat =>
              decide (c.get cat ≠ "empty" ∧ ¬(cat = .generator ∧ c.get .platform = "win")))).map
            c.get) := by
  unfold generate_build_dir_name
  rw [show (fun (parts : List String) (category : Category) =>
        if c.get category ≠ "empty" then
          if category = .generator ∧ c.get .platform = "win" then parts
          else parts ++ [c.get category]
        else parts)
      = (fun parts cat =>
          if (fun cat => decide (c.get cat ≠ "empty" ∧
              ¬(cat = .generator ∧ c.get .platform = "win"))) cat
          then parts ++ [c.get cat] else parts) from ?_]
  · rw [foldl_append_filter]
    rfl
  · funext parts category
    by_cases h1 : c.get category ≠ "empty" <;>
      by_cases h2 : category = .generator ∧ c.get .platform = "win" <;>
      simp [h1, h2]

/-- The token list that `generate_install_dir_name` joins. -/
def installParts (c : Config) : List String :=
  (categoryOrder.filter (fun cat =>
      decide (cat ∉ skip_categories ∧ c.get cat ≠ "empty"))).map c.get

/-- **C8.** `generate_install_dir_name` joins, in category declaration
order, exactly the non-sentinel tokens of the categories outside the fixed
skip-set; for any valid configuration the token held by a skip-set category
never appears among the joined parts, regardless of platform. -/
theorem C8_install_dir_name (c : Config) (hvalid : ValidSel c) :
    generate_install_dir_name c = String.intercalate "-" (installParts c) ∧
    ∀ cat ∈ skip_categories, c.get cat ∉ installParts c := by
  constructor
  · unfold generate_install_dir_name installParts
    rw [show (fun (parts : List String) (category : Category) =>
          if category ∈ skip_categories then parts
          else if c.get category ≠ "empty" then parts ++ [c.get category]
          else parts)
        = (fun parts cat =>
            if (fun cat => decide (cat ∉ skip_categories ∧ c.get cat ≠ "empty")) cat
            then parts ++ [c.get cat] else parts) from ?_]
    · rw [foldl_append_filter]
      rfl
    · funext parts category
      by_cases h1 : category ∈ skip_categories <;>
        by_cases h2 : c.get category ≠ "empty" <;>
        simp [h1, h2]
  · intro cat hskip hmem
    unfold installParts at hmem
    obtain ⟨cat', hcat', heq⟩ := List.mem_map.1 hmem
    obtain ⟨-, hfilt⟩ := List.mem_filter.1 hcat'
    rw [decide_eq_true_eq] at hfilt
    obtain ⟨hnotskip, hnonempty⟩ := hfilt
    rcases hvalid cat with hempty | hopt
    · rw [heq, hempty] at hnonempty
      exact hnonempty rfl
    · rcases hvalid cat' with hempty' | hopt'
      · exact hnonempty hempty'
      · have : cat' = cat := mem_options_unique hopt' (heq ▸ hopt)
        exact hnotskip (this ▸ hskip)

/-- A typical fully-populated Linux configuration (the spec's
`linux-make-gcc-mt-lp64-static-release-znver3` example). -/
def cfgDemo : Config :=
  ⟨"linux", "make", "gcc", "mt", "lp64", "static", "empty", "znver3", "release",
   "empty", "empty", "empty", "empty", "empty", "empty"⟩

theorem C8_install_dir_name_witness :
    ValidSel cfgDemo ∧
    (generate_install_dir_name cfgDemo = String.intercalate "-" (installParts cfgDemo) ∧
     ∀ cat ∈ skip_categories, cfgDemo.get cat ∉ installParts cfgDemo) :=
  ⟨by decide, C8_install_dir_name cfgDemo (by decide)⟩

/-- The spec's worked example: the build-directory name orders tokens by
category declaration order (arch before build_type). -/
theorem cfgDemo_build_dir_name : generate_build_dir_name cfgDemo
    = "linux-make-gcc-mt-lp64-static-znver3-release" := by decide

/-- The spec's worked example: the install-directory name drops the
skip-set tokens. -/
theorem cfgDemo_install_dir_name :
    generate_install_dir_name cfgDemo = "linux-gcc-znver3-release" := by decide

/-! ### The preset document (`generate_preset`) -/

/-- Python-dict insertion: overwrite in place when the key exists, else
append. -/
def dictInsert (d : List (String × String)) (k v : String) : List (String × String) :=
  if d.any (fun kv => kv.1 == k) then
    d.map (fun kv => if kv.1 == k then (k, v) else kv)
  else
    d ++ [(k, v)]

/-- A Python dict literal: the written entries inserted left to right, so a
duplicated key keeps its first position but takes the last value written. -/
def mkDict (entries : List (String × String)) : List (String × String) :=
  entries.foldl (fun d kv => dictInsert d kv.1 kv.2) []

/-- Dictionary lookup. -/
def dictLookup (d : List (String × String)) (k : String) : Option String :=
  (d.find? (fun kv => kv.1 == k)).map Prod.snd

/-- One entry of `"configurePresets"`. -/
structure ConfigurePreset where
  name : String
  inherits : List String
  installPrefixValue : String
  binaryDir : String
  hidden : Bool
deriving DecidableEq

/-- One entry of `"buildPresets"` (`targets` is present only on the
install variant). -/
structure BuildPreset where
  name : String
  configurePreset : String
  inherits : String
  targets : Option String
deriving DecidableEq

/-- One entry of `"testPresets"`. -/
structure TestPreset where
  name : String
  configurePreset : String
  inherits : String
deriving DecidableEq

/-- One entry of `"workflowPresets"`; each step is a Python dict. -/
structure WorkflowPreset where
  name : String
  description : String
  steps : List (List (String × String))
deriving DecidableEq

/-- The emitted preset document. -/
structure Preset where
  version : Nat
  includeList : List String
  configurePresets : List ConfigurePreset
  buildPresets : List BuildPreset
  testPresets : List TestPreset
  workflowPresets : List WorkflowPreset
deriving DecidableEq

/-- The document literal built by `generate_preset` from the parsed
components (the `inherits` list iterates `components.items()` in
insertion order, which is the declaration order of `PRESET_OPTIONS`). -/
def presetDoc (preset_name : String) (components : Config) : Preset :=
  let inherits := "base" ::
    categoryOrder.foldl
      (fun acc category =>
        if components.get category ≠ "empty" then acc ++ [components.get category]
        else acc) []
  let build_dir_name := generate_build_dir_name components
  let install_dir_name := generate_install_dir_name components
  { version := 6
    includeList := ["base.json"]
    configurePresets := [
      { name := preset_name
        inherits := inherits
        installPrefixValue := "${sourceDir}/install-" ++ install_dir_name
        binaryDir := "${sourceDir}/build-" ++ build_dir_name
        hidden := false }]
    buildPresets := [
      { name := preset_name
        configurePreset := preset_name
        inherits := "base"
        targets := none },
      { name := preset_name ++ "-install"
        configurePreset := preset_name
        inherits := "base"
        targets := some "install" }]
    testPresets := [
      { name := preset_name
        configurePreset := preset_name
        inherits := "base" }]
    workflowPresets := [
      { name := preset_name
        description := "Build and check AOCL-DA"
        steps := [
          mkDict [("type", "configure"), ("name", preset_name)],
          mkDict [("type", "build"), ("name", preset_name),
                  ("name", preset_name ++ "-install")],
          mkDict [("type", "test"), ("name", preset_name)]] }] }

/-- `generate_preset`: parse the name (on a parse error the source prints a
diagnostic and calls `sys.exit(1)`, modelled by `.error`), then build the
document. -/
def generate_preset (preset_name : String) : Except ParseError Preset :=
  match parse_preset_name preset_name with
  | .error e => .error e
  | .ok components => .ok (presetDoc preset_name components)

theorem generate_preset_ok_inv {name : String} {p : Preset}
    (hg : generate_preset name = .ok p) :
    ∃ c, parse_preset_name name = .ok c ∧ p = presetDoc name c := by
  unfold generate_preset at hg
  rcases hq : parse_preset_name name with e | c
  · rw [hq] at hg
    cases hg
  · rw [hq] at hg
    injection hg with hg'
    exact ⟨c, rfl, hg'.symm⟩

theorem append_install_ne (name : String) : name ++ "-install" ≠ name := by
  intro h
  have h2 := congrArg String.length h
  rw [String.length_append] at h2
  rw [show ("-install" : String).length = 8 from rfl] at h2
  omega

/-! ### C4: the workflow chains configure → build-install → test -/

/-- **C4.** For every successfully generated preset, the emitted workflow
stanza chains three steps — configure, build, test — keyed by the preset
name, and its build step references the install-variant build preset
(`name ++ "-install"`, which is the second emitted build preset), not the
plain build preset (the duplicated `"name"` key in the source's build step
resolves, by Python dict-literal last-value-wins semantics, to the install
variant). -/
theorem C4_workflow_build_install {name : String} {p : Preset}
    (hg : generate_preset name = .ok p) :
    ∃ wf, p.workflowPresets = [wf] ∧
      wf.steps.map (fun st => (dictLookup st "type", dictLookup st "name"))
        = [(some "configure", some name),
           (some "build", some (name ++ "-install")),
           (some "test", some name)] ∧
      name ++ "-install" ≠ name ∧
      p.buildPresets.map BuildPreset.name = [name, name ++ "-install"] := by
  obtain ⟨c, -, rfl⟩ := generate_preset_ok_inv hg
  refine ⟨_, rfl, ?_, append_install_ne name, rfl⟩
  rfl

/-- The document generated for the minimal name `"st"`. -/
def presetSt : Preset :=
  { version := 6
    includeList := ["base.json"]
    configurePresets := [
      { name := "st"
        inherits := ["base", "st"]
        installPrefixValue := "${sourceDir}/install-"
        binaryDir := "${sourceDir}/build-st"
        hidden := false }]
    buildPresets := [
      { name := "st", configurePreset := "st", inherits := "base", targets := none },
      { name := "st-install", configurePreset := "st", inherits := "base",
        targets := some "install" }]
    testPresets := [{ name := "st", configurePreset := "st", inherits := "base" }]
    workflowPresets := [
      { name := "st"
        description := "Build and check AOCL-DA"
        steps := [
          [("type", "configure"), ("name", "st")],
          [("type", "build"), ("name", "st-install")],
          [("type", "test"), ("name", "st")]] }] }

theorem C4_workflow_build_install_witness :
    generate_preset "st" = .ok presetSt ∧
    ∃ wf, presetSt.workflowPresets = [wf] ∧
      wf.steps.map (fun st => (dictLookup st "type", dictLookup st "name"))
        = [(some "configure", some "st"),
           (some "build", some ("st" ++ "-install")),
           (some "test", some "st")] ∧
      "st" ++ "-install" ≠ "st" ∧
      presetSt.buildPresets.map BuildPreset.name = ["st", "st" ++ "-install"] :=
  ⟨by decide, @C4_workflow_build_install "st" presetSt (by decide)⟩

/-! ### C9: the configure preset's inheritance list -/

/-- **C9.** For every valid preset name, the inheritance list of the emitted
configure-preset stanza is exactly the fixed base identifier `"base"`
followed by every non-sentinel token of the resolved configuration in
category declaration order (on Windows this includes the synthesized
`"msvc"` generator value, which the parser stored before the document was
built). -/
theorem C9_configure_inherits {name : String} {c : Config} {p : Preset}
    (hp : parse_preset_name name = .ok c) (hg : generate_preset name = .ok p) :
    p.configurePresets.map ConfigurePreset.inherits
      = ["base" :: (categoryOrder.filter (fun cat => decide (c.get cat ≠ "empty"))).map c.get] := by
  obtain ⟨c', hp', rfl⟩ := generate_preset_ok_inv hg
  rw [hp] at hp'
  injection hp' with hc
  subst hc
  show ["base" :: categoryOrder.foldl
      (fun acc category =>
        if c.get category ≠ "empty" then acc ++ [c.get category] else acc) []]
    = _
  rw [show (fun (acc : List String) (category : Category) =>
        if c.get category ≠ "empty" then acc ++ [c.get category] else acc)
      = (fun acc cat =>
          if (fun cat => decide (c.get cat ≠ "empty")) cat then acc ++ [c.get cat] else acc)
      from ?_]
  · rw [foldl_append_filter]
    rfl
  · funext acc category
    by_cases h1 : c.get category ≠ "empty" <;> simp [h1]

/-- The configuration parsed from `"win"`. -/
def cfgWin : Config := (emptyConfig.set .platform "win").set .generator "msvc"

/-- The document generated for `"win"`. -/
def presetWin : Preset :=
  { version := 6
    includeList := ["base.json"]
    configurePresets := [
      { name := "win"
        inherits := ["base", "win", "msvc"]
        installPrefixValue := "${sourceDir}/install-win"
        binaryDir := "${sourceDir}/build-win"
        hidden := false }]
    buildPresets := [
      { name := "win", configurePreset := "win", inherits := "base", targets := none },
      { name := "win-install", configurePreset := "win", inherits := "base",
        targets := some "install" }]
    testPresets := [{ name := "win", configurePreset := "win", inherits := "base" }]
    workflowPresets := [
      { name := "win"
        description := "Build and check AOCL-DA"
        steps := [
          [("type", "configure"), ("name", "win")],
          [("type", "build"), ("name", "win-install")],
          [("type", "test"), ("name", "win")]] }] }

theorem C9_configure_inherits_witness :
    parse_preset_name "win" = .ok cfgWin ∧ generate_preset "win" = .ok presetWin ∧
    presetWin.configurePresets.map ConfigurePreset.inherits
      = ["base" :: (categoryOrder.filter
            (fun cat => decide (cfgWin.get cat ≠ "empty"))).map cfgWin.get] :=
  ⟨by decide, by decide,
    @C9_configure_inherits "win" cfgWin presetWin (by decide) (by decide)⟩

/-! ### Batch enumeration (`generate_all_presets`) -/

/-- Failure modes of one `single_preset` call inside the batch: a parse
error makes `generate_preset` call `sys.exit(1)` (raising `SystemExit`,
which is *not* a subclass of `Exception`), while file-system trouble raises
an `Exception` carrying a message. -/
inductive SingleFailure where
  | systemExit
  | exception (msg : String)
deriving DecidableEq

/-- One `single_preset(preset_name)` call: build the document (exiting on a
parse error), then perform the file writes, whose outcome is supplied by
the oracle `io` (`some msg` models the writes raising an `Exception` with
message `msg`, `none` models success). -/
def single_preset_run (io : String → Option String) (preset_name : String) :
    Except SingleFailure Preset :=
  match generate_preset preset_name with
  | .error _ => .error .systemExit
  | .ok preset =>
    match io preset_name with
    | some msg => .error (.exception msg)
    | none => .ok preset

/-- The observable state of the batch loop: the three counters, the names
printed as `[n] Generating preset: …` (the attempted candidates), and the
messages of caught per-item exceptions. -/
structure BatchState where
  total : Nat
  successful : Nat
  skipped : Nat
  attempted : List String
  errors : List String
deriving DecidableEq

/-- Outcome of one candidate combination: continue, `break` out of the
platform loop, or abort the whole batch with an uncaught `SystemExit`. -/
inductive StepResult where
  | next (s : BatchState)
  | stop (s : BatchState)
  | fatal (s : BatchState)
deriving DecidableEq

/-- Python truthiness of the `limit` argument: `None` and `0` are falsy. -/
def limitTruthy : Option Int → Bool
  | none => false
  | some n => n != 0

/-- The common tail of the loop body after the skip test: count the
candidate, `break` when past the limit, record the candidate as attempted,
and (unless dry-run) try `single_preset`, catching `Exception` but not
`SystemExit`. -/
def doGenerate (io : String → Option String) (dry_run : Bool) (limit : Option Int)
    (s : BatchState) (preset_name : String) : StepResult :=
  if limitTruthy limit ∧ ((s.total + 1 : Nat) : Int) > limit.getD 0 then
    .stop { s with total := s.total + 1 }
  else if dry_run then
    .next { s with total := s.total + 1, attempted := s.attempted ++ [preset_name] }
  else
    match single_preset_run io preset_name with
    | .ok _ =>
      .next { s with
        total := s.total + 1
        attempted := s.attempted ++ [preset_name]
        successful := s.successful + 1 }
    | .error .systemExit =>
      .fatal { s with total := s.total + 1, attempted := s.attempted ++ [preset_name] }
    | .error (.exception msg) =>
      .next { s with
        total := s.total + 1
        attempted := s.attempted ++ [preset_name]
        errors := s.errors ++ [msg] }

def batch_compilers : List String := ["gcc", "clang"]

def batch_threading : List String := ["st", "mt"]

def batch_int_size : List String := ["lp64", "ilp64"]

def batch_lib_type : List String := ["static", "shared"]

def batch_build_type : List String := ["release", "debug"]

def batch_arch : List String := ["native", "dynamic"]

def batch_build_python : List String := ["", "python"]

/-- One Linux candidate `(comp, thread, int_s, lib, btype, ar, python)`. -/
abbrev LinuxCombo := String × String × String × String × String × String × String

/-- `itertools.product(compilers, threading, int_size, lib_type, build_type,
arch, build_python)` in iteration order (rightmost factor fastest). -/
def linuxCombos : List LinuxCombo :=
  batch_compilers.flatMap fun comp =>
  batch_threading.flatMap fun thread =>
  batch_int_size.flatMap fun int_s =>
  batch_lib_type.flatMap fun lib =>
  batch_build_type.flatMap fun btype =>
  batch_arch.flatMap fun ar =>
  batch_build_python.map fun python => (comp, thread, int_s, lib, btype, ar, python)

/-- `lib == "static" and python == "python"`. -/
def linuxSkip : LinuxCombo → Bool
  | (_, _, _, lib, _, _, python) => lib == "static" && python == "python"

/-- The joined Linux preset name (`python` appended only when truthy;
`filter(None, …)` drops empty strings before joining). -/
def linuxName : LinuxCombo → String
  | (comp, thread, int_s, lib, btype, ar, python) =>
    let preset_parts := ["linux", comp, thread, int_s, lib, btype, ar] ++
      (if python ≠ "" then [python] else [])
    String.intercalate "-" (preset_parts.filter (fun p => p != ""))

/-- One Windows candidate `(thread, int_s, lib, btype, ar, python)`. -/
abbrev WinCombo := String × String × String × String × String × String

/-- `itertools.product(threading, int_size, lib_type, build_type, arch,
build_python)` in iteration order. -/
def winCombos : List WinCombo :=
  batch_threading.flatMap fun thread =>
  batch_int_size.flatMap fun int_s =>
  batch_lib_type.flatMap fun lib =>
  batch_build_type.flatMap fun btype =>
  batch_arch.flatMap fun ar =>
  batch_build_python.map fun python => (thread, int_s, lib, btype, ar, python)

def winSkip : WinCombo → Bool
  | (_, _, lib, _, _, python) => lib == "static" && python == "python"

def winName : WinCombo → String
  | (thread, int_s, lib, btype, ar, python) =>
    let preset_parts := ["win", thread, int_s, lib, btype, ar] ++
      (if python ≠ "" then [python] else [])
    String.intercalate "-" (preset_parts.filter (fun p => p != ""))

/-- The loop body for one candidate: skip static+python (counted as
skipped, not an error), otherwise run the common tail on the joined name. -/
def comboStep {α : Type} (io : String → Option String) (dry_run : Bool)
    (limit : Option Int) (skip : α → Bool) (name : α → String)
    (s : BatchState) (combo : α) : StepResult :=
  if skip combo then .next { s with skipped := s.skipped + 1 }
  else doGenerate io dry_run limit s (name combo)

/-- Result of the whole batch: finished, or aborted by an uncaught
`SystemExit`. -/
inductive BatchResult where
  | done (s : BatchState)
  | fatal (s : BatchState)
deriving DecidableEq

/-- One platform's `for … in itertools.product(…)` loop, with `break`
(`.stop`) ending the loop normally and `SystemExit` aborting everything. -/
def runCombos {α : Type} (step : BatchState → α → StepResult) :
    List α → BatchState → BatchResult
  | [], s => .done s
  | x :: xs, s =>
    match step s x with
    | .next s' => runCombos step xs s'
    | .stop s' => .done s'
    | .fatal s' => .fatal s'

def BatchResult.state : BatchResult → BatchState
  | .done s => s
  | .fatal s => s

def BatchResult.isDone : BatchResult → Bool
  | .done _ => true
  | .fatal _ => false

/-- The zeroed counters at the start of the batch. -/
def batchInit : BatchState := ⟨0, 0, 0, [], []⟩

theorem batchInit_total : batchInit.total = 0 := rfl

theorem batchInit_attempted : batchInit.attempted = [] := rfl

theorem batchInit_errors : batchInit.errors = [] := rfl

/-- `generate_all_presets(dry_run, limit)`: the Linux loop, the
between-platform limit check, then the Windows loop. -/
def generate_all_presets (io : String → Option String) (dry_run : Bool)
    (limit : Option Int) : BatchResult :=
  match runCombos (comboStep io dry_run limit linuxSkip linuxName) linuxCombos batchInit with
  | .fatal s => .fatal s
  | .done s =>
    if limitTruthy limit ∧ (s.total : Int) ≥ limit.getD 0 then .done s
    else runCombos (comboStep io dry_run limit winSkip winName) winCombos s

/-- The names of all non-skipped candidates, in enumeration order. -/
def allBatchNames : List String :=
  (linuxCombos.filter (fun c => !linuxSkip c)).map linuxName ++
  (winCombos.filter (fun c => !winSkip c)).map winName

/-! ### Every batch-generated name parses successfully -/

theorem batch_compilers_sub : ∀ t ∈ batch_compilers, t ∈ options Category.compiler := by decide

theorem batch_threading_sub : ∀ t ∈ batch_threading, t ∈ options Category.threading := by decide

theorem batch_int_size_sub : ∀ t ∈ batch_int_size, t ∈ options Category.int_size := by decide

theorem batch_lib_type_sub : ∀ t ∈ batch_lib_type, t ∈ options Category.lib_type := by decide

theorem batch_build_type_sub : ∀ t ∈ batch_build_type, t ∈ options Category.build_type := by decide

theorem batch_arch_sub : ∀ t ∈ batch_arch, t ∈ options Category.arch := by decide

/-- Parsing a hyphen-joined token list drawn from pairwise distinct
categories runs the matching loop to completion. -/
theorem parse_intercalate_toks (toks : List (Category × String))
    (hne : toks ≠ [])
    (hopt : ∀ p ∈ toks, p.2 ∈ options p.1)
    (hnd : (toks.map Prod.fst).Nodup) :
    parse_preset_name (String.intercalate "-" (toks.map Prod.snd))
      = postValidate (setAll emptyConfig toks) := by
  have hsplit : pySplitHyphen (String.intercalate "-" (toks.map Prod.snd))
      = toks.map Prod.snd := by
    apply pySplitHyphen_intercalate
    · simpa using hne
    · intro s hs
      obtain ⟨q, hq, rfl⟩ := List.mem_map.1 hs
      exact (options_token_sane q.1 q.2 (hopt q hq)).2.2
  simp only [parse_preset_name]
  rw [hsplit, if_neg (by simpa using hne),
    parseLoop_ok toks emptyConfig hopt hnd (fun p _ => Config.get_emptyConfig p.1)]

theorem filter_ne_empty_eq {l : List String} (h : ∀ a ∈ l, a ≠ "") :
    l.filter (fun p => p != "") = l := by
  rw [List.filter_eq_self]
  intro a ha
  simpa using h a ha

theorem linuxCombos_mem {x : LinuxCombo} (hx : x ∈ linuxCombos) :
    x.1 ∈ batch_compilers ∧ x.2.1 ∈ batch_threading ∧ x.2.2.1 ∈ batch_int_size ∧
    x.2.2.2.1 ∈ batch_lib_type ∧ x.2.2.2.2.1 ∈ batch_build_type ∧
    x.2.2.2.2.2.1 ∈ batch_arch ∧ x.2.2.2.2.2.2 ∈ batch_build_python := by
  simp only [linuxCombos, List.mem_flatMap, List.mem_map] at hx
  obtain ⟨comp, hc, thread, ht, int_s, hi, lib, hl, btype, hb, ar, ha, python, hp, rfl⟩ := hx
  exact ⟨hc, ht, hi, hl, hb, ha, hp⟩

theorem winCombos_mem {x : WinCombo} (hx : x ∈ winCombos) :
    x.1 ∈ batch_threading ∧ x.2.1 ∈ batch_int_size ∧ x.2.2.1 ∈ batch_lib_type ∧
    x.2.2.2.1 ∈ batch_build_type ∧ x.2.2.2.2.1 ∈ batch_arch ∧
    x.2.2.2.2.2 ∈ batch_build_python := by
  simp only [winCombos, List.mem_flatMap, List.mem_map] at hx
  obtain ⟨thread, ht, int_s, hi, lib, hl, btype, hb, ar, ha, python, hp, rfl⟩ := hx
  exact ⟨ht, hi, hl, hb, ha, hp⟩

/-- The (category, token) pairs of a Linux batch candidate without the
python flag. -/
def linuxToks (comp thread int_s lib btype ar : String) : List (Category × String) :=
  [(Category.platform, "linux"), (Category.compiler, comp),
   (Category.threading, thread), (Category.int_size, int_s),
   (Category.lib_type, lib), (Category.build_type, btype),
   (Category.arch, ar)]

/-- The (category, token) pairs of a Windows batch candidate without the
python flag. -/
def winToks (thread int_s lib btype ar : String) : List (Category × String) :=
  [(Category.platform, "win"),
   (Category.threading, thread), (Category.int_size, int_s),
   (Category.lib_type, lib), (Category.build_type, btype),
   (Category.arch, ar)]

theorem linuxToks_ne_nil (comp thread int_s lib btype ar : String) :
    linuxToks comp thread int_s lib btype ar ≠ [] := by
  simp [linuxToks]

theorem linuxToksPy_ne_nil (comp thread int_s lib btype ar : String) :
    linuxToks comp thread int_s lib btype ar ++ [(Category.build_python, "python")] ≠ [] := by
  simp [linuxToks]

theorem linuxToks_map_fst (comp thread int_s lib btype ar : String) :
    (linuxToks comp thread int_s lib btype ar).map Prod.fst
      = [Category.platform, Category.compiler, Category.threading, Category.int_size,
         Category.lib_type, Category.build_type, Category.arch] := rfl

theorem linuxToksPy_map_fst (comp thread int_s lib btype ar : String) :
    ((linuxToks comp thread int_s lib btype ar
        ++ [(Category.build_python, "python")]).map Prod.fst)
      = [Category.platform, Category.compiler, Category.threading, Category.int_size,
         Category.lib_type, Category.build_type, Category.arch, Category.build_python] := rfl

theorem linuxToks_nodup (comp thread int_s lib btype ar : String) :
    ((linuxToks comp thread int_s lib btype ar).map Prod.fst).Nodup := by
  rw [linuxToks_map_fst]
  decide

theorem linuxToksPy_nodup (comp thread int_s lib btype ar : String) :
    ((linuxToks comp thread int_s lib btype ar
        ++ [(Category.build_python, "python")]).map Prod.fst).Nodup := by
  rw [linuxToksPy_map_fst]
  decide

theorem linuxToks_bp_not_mem (comp thread int_s lib btype ar : String) :
    Category.build_python ∉ (linuxToks comp thread int_s lib btype ar).map Prod.fst := by
  rw [linuxToks_map_fst]
  decide

theorem parse_linuxName_ok {x : LinuxCombo} (hx : x ∈ linuxCombos)
    (hns : linuxSkip x = false) :
    ∃ cfg, parse_preset_name (linuxName x) = .ok cfg := by
  obtain ⟨hc, ht, hi, hl, hb, ha, hp⟩ := linuxCombos_mem hx
  obtain ⟨comp, thread, int_s, lib, btype, ar, python⟩ := x
  simp only at hc ht hi hl hb ha hp
  have hcomp := batch_compilers_sub comp hc
  have hthread := batch_threading_sub thread ht
  have hint := batch_int_size_sub int_s hi
  have hlib := batch_lib_type_sub lib hl
  have hbtype := batch_build_type_sub btype hb
  have har := batch_arch_sub ar ha
  have hp' : python = "" ∨ python = "python" := by simpa [batch_build_python] using hp
  rcases hp' with rfl | rfl
  · refine ⟨postProcess (setAll emptyConfig (linuxToks comp thread int_s lib btype ar)), ?_⟩
    have hname : linuxName (comp, thread, int_s, lib, btype, ar, "")
        = String.intercalate "-"
            ((linuxToks comp thread int_s lib btype ar).map Prod.snd) := by
      show String.intercalate "-"
          ((["linux", comp, thread, int_s, lib, btype, ar] ++
            (if ("" : String) ≠ "" then [("" : String)] else [])).filter
              (fun p => p != "")) = _
      have hfilter : (["linux", comp, thread, int_s, lib, btype, ar]).filter
          (fun p => p != "") = ["linux", comp, thread, int_s, lib, btype, ar] := by
        apply filter_ne_empty_eq
        intro a hamem
        simp only [List.mem_cons, List.not_mem_nil, or_false] at hamem
        rcases hamem with rfl | rfl | rfl | rfl | rfl | rfl | rfl
        · decide
        · exact (options_token_sane _ _ hcomp).1
        · exact (options_token_sane _ _ hthread).1
        · exact (options_token_sane _ _ hint).1
        · exact (options_token_sane _ _ hlib).1
        · exact (options_token_sane _ _ hbtype).1
        · exact (options_token_sane _ _ har).1
      rw [if_neg (by simp), List.append_nil, hfilter]
      rfl
    rw [hname, parse_intercalate_toks _ (linuxToks_ne_nil _ _ _ _ _ _) ?hopt
      (linuxToks_nodup _ _ _ _ _ _)]
    case hopt =>
      intro p hpmem
      simp only [linuxToks, List.mem_cons, List.not_mem_nil, or_false] at hpmem
      rcases hpmem with rfl | rfl | rfl | rfl | rfl | rfl | rfl
      · decide
      · exact hcomp
      · exact hthread
      · exact hint
      · exact hlib
      · exact hbtype
      · exact har
    have hplat : (setAll emptyConfig
        (linuxToks comp thread int_s lib btype ar)).get .platform = "linux" :=
      get_setAll_mem (linuxToks_nodup _ _ _ _ _ _) (by simp [linuxToks]) emptyConfig
    have hbp : (setAll emptyConfig
        (linuxToks comp thread int_s lib btype ar)).get .build_python = "empty" := by
      rw [get_setAll_not_mem (linuxToks_bp_not_mem _ _ _ _ _ _), Config.get_emptyConfig]
    exact postValidate_wellFormed
      (fun hw => absurd (hplat.symm.trans hw) (by decide))
      (fun hand => absurd (hbp.symm.trans hand.2) (by decide))
  · refine ⟨postProcess (setAll emptyConfig
      (linuxToks comp thread int_s lib btype ar ++ [(Category.build_python, "python")])), ?_⟩
    have hname : linuxName (comp, thread, int_s, lib, btype, ar, "python")
        = String.intercalate "-"
            ((linuxToks comp thread int_s lib btype ar
              ++ [(Category.build_python, "python")]).map Prod.snd) := by
      show String.intercalate "-"
          ((["linux", comp, thread, int_s, lib, btype, ar] ++
            (if ("python" : String) ≠ "" then [("python" : String)] else [])).filter
              (fun p => p != "")) = _
      have hfilter : ((["linux", comp, thread, int_s, lib, btype, ar]) ++
          ["python"]).filter (fun p => p != "")
          = ["linux", comp, thread, int_s, lib, btype, ar] ++ ["python"] := by
        apply filter_ne_empty_eq
        intro a hamem
        simp only [List.mem_append, List.mem_cons, List.not_mem_nil, or_false] at hamem
        rcases hamem with (rfl | rfl | rfl | rfl | rfl | rfl | rfl) | rfl
        · decide
        · exact (options_token_sane _ _ hcomp).1
        · exact (options_token_sane _ _ hthread).1
        · exact (options_token_sane _ _ hint).1
        · exact (options_token_sane _ _ hlib).1
        · exact (options_token_sane _ _ hbtype).1
        · exact (options_token_sane _ _ har).1
        · decide
      rw [if_pos (by decide), hfilter]
      simp [linuxToks]
    rw [hname, parse_intercalate_toks _ (linuxToksPy_ne_nil _ _ _ _ _ _) ?hopt
      (linuxToksPy_nodup _ _ _ _ _ _)]
    case hopt =>
      intro p hpmem
      simp only [linuxToks, List.mem_append, List.mem_cons,
        List.not_mem_nil, or_false] at hpmem
      rcases hpmem with (rfl | rfl | rfl | rfl | rfl | rfl | rfl) | rfl
      · decide
      · exact hcomp
      · exact hthread
      · exact hint
      · exact hlib
      · exact hbtype
      · exact har
      · decide
    have hplat : (setAll emptyConfig
        (linuxToks comp thread int_s lib btype ar
          ++ [(Category.build_python, "python")])).get .platform = "linux" :=
      get_setAll_mem (linuxToksPy_nodup _ _ _ _ _ _) (by simp [linuxToks]) emptyConfig
    have hlibeq : (setAll emptyConfig
        (linuxToks comp thread int_s lib btype ar
          ++ [(Category.build_python, "python")])).get .lib_type = lib :=
      get_setAll_mem (linuxToksPy_nodup _ _ _ _ _ _) (by simp [linuxToks]) emptyConfig
    have hlibne : lib ≠ "static" := by
      simpa [linuxSkip] using hns
    exact postValidate_wellFormed
      (fun hw => absurd (hplat.symm.trans hw) (by decide))
      (fun hand => hlibne (hlibeq.symm.trans hand.1))

theorem winToks_ne_nil (thread int_s lib btype ar : String) :
    winToks thread int_s lib btype ar ≠ [] := by
  simp [winToks]

theorem winToksPy_ne_nil (thread int_s lib btype ar : String) :
    winToks thread int_s lib btype ar ++ [(Category.build_python, "python")] ≠ [] := by
  simp [winToks]

theorem winToks_map_fst (thread int_s lib btype ar : String) :
    (winToks thread int_s lib btype ar).map Prod.fst
      = [Category.platform, Category.threading, Category.int_size,
         Category.lib_type, Category.build_type, Category.arch] := rfl

theorem winToksPy_map_fst (thread int_s lib btype ar : String) :
    ((winToks thread int_s lib btype ar ++ [(Category.build_python, "python")]).map Prod.fst)
      = [Category.platform, Category.threading, Category.int_size,
         Category.lib_type, Category.build_type, Category.arch, Category.build_python] := rfl

theorem winToks_nodup (thread int_s lib btype ar : String) :
    ((winToks thread int_s lib btype ar).map Prod.fst).Nodup := by
  rw [winToks_map_fst]
  decide

theorem winToksPy_nodup (thread int_s lib btype ar : String) :
    ((winToks thread int_s lib btype ar
        ++ [(Category.build_python, "python")]).map Prod.fst).Nodup := by
  rw [winToksPy_map_fst]
  decide

theorem winToks_bp_not_mem (thread int_s lib btype ar : String) :
    Category.build_python ∉ (winToks thread int_s lib btype ar).map Prod.fst := by
  rw [winToks_map_fst]
  decide

theorem winToks_compiler_not_mem (thread int_s lib btype ar : String) :
    Category.compiler ∉ (winToks thread int_s lib btype ar).map Prod.fst := by
  rw [winToks_map_fst]
  decide

theorem winToksPy_compiler_not_mem (thread int_s lib btype ar : String) :
    Category.compiler ∉ ((winToks thread int_s lib btype ar
        ++ [(Category.build_python, "python")]).map Prod.fst) := by
  rw [winToksPy_map_fst]
  decide

theorem parse_winName_ok {x : WinCombo} (hx : x ∈ winCombos)
    (hns : winSkip x = false) :
    ∃ cfg, parse_preset_name (winName x) = .ok cfg := by
  obtain ⟨ht, hi, hl, hb, ha, hp⟩ := winCombos_mem hx
  obtain ⟨thread, int_s, lib, btype, ar, python⟩ := x
  simp only at ht hi hl hb ha hp
  have hthread := batch_threading_sub thread ht
  have hint := batch_int_size_sub int_s hi
  have hlib := batch_lib_type_sub lib hl
  have hbtype := batch_build_type_sub btype hb
  have har := batch_arch_sub ar ha
  have hp' : python = "" ∨ python = "python" := by simpa [batch_build_python] using hp
  rcases hp' with rfl | rfl
  · refine ⟨postProcess (setAll emptyConfig (winToks thread int_s lib btype ar)), ?_⟩
    have hname : winName (thread, int_s, lib, btype, ar, "")
        = String.intercalate "-"
            ((winToks thread int_s lib btype ar).map Prod.snd) := by
      show String.intercalate "-"
          ((["win", thread, int_s, lib, btype, ar] ++
            (if ("" : String) ≠ "" then [("" : String)] else [])).filter
              (fun p => p != "")) = _
      have hfilter : (["win", thread, int_s, lib, btype, ar]).filter
          (fun p => p != "") = ["win", thread, int_s, lib, btype, ar] := by
        apply filter_ne_empty_eq
        intro a hamem
        simp only [List.mem_cons, List.not_mem_nil, or_false] at hamem
        rcases hamem with rfl | rfl | rfl | rfl | rfl | rfl
        · decide
        · exact (options_token_sane _ _ hthread).1
        · exact (options_token_sane _ _ hint).1
        · exact (options_token_sane _ _ hlib).1
        · exact (options_token_sane _ _ hbtype).1
        · exact (options_token_sane _ _ har).1
      rw [if_neg (by simp), List.append_nil, hfilter]
      rfl
    rw [hname, parse_intercalate_toks _ (winToks_ne_nil _ _ _ _ _) ?hopt
      (winToks_nodup _ _ _ _ _)]
    case hopt =>
      intro p hpmem
      simp only [winToks, List.mem_cons, List.not_mem_nil, or_false] at hpmem
      rcases hpmem with rfl | rfl | rfl | rfl | rfl | rfl
      · decide
      · exact hthread
      · exact hint
      · exact hlib
      · exact hbtype
      · exact har
    have hcompiler : (setAll emptyConfig
        (winToks thread int_s lib btype ar)).get .compiler = "empty" := by
      rw [get_setAll_not_mem (winToks_compiler_not_mem _ _ _ _ _), Config.get_emptyConfig]
    have hbp : (setAll emptyConfig
        (winToks thread int_s lib btype ar)).get .build_python = "empty" := by
      rw [get_setAll_not_mem (winToks_bp_not_mem _ _ _ _ _), Config.get_emptyConfig]
    exact postValidate_wellFormed (fun _ => hcompiler)
      (fun hand => absurd (hbp.symm.trans hand.2) (by decide))
  · refine ⟨postProcess (setAll emptyConfig
      (winToks thread int_s lib btype ar ++ [(Category.build_python, "python")])), ?_⟩
    have hname : winName (thread, int_s, lib, btype, ar, "python")
        = String.intercalate "-"
            ((winToks thread int_s lib btype ar
              ++ [(Category.build_python, "python")]).map Prod.snd) := by
      show String.intercalate "-"
          ((["win", thread, int_s, lib, btype, ar] ++
            (if ("python" : String) ≠ "" then [("python" : String)] else [])).filter
              (fun p => p != "")) = _
      have hfilter : ((["win", thread, int_s, lib, btype, ar]) ++
          ["python"]).filter (fun p => p != "")
          = ["win", thread, int_s, lib, btype, ar] ++ ["python"] := by
        apply filter_ne_empty_eq
        intro a hamem
        simp only [List.mem_append, List.mem_cons, List.not_mem_nil, or_false] at hamem
        rcases hamem with (rfl | rfl | rfl | rfl | rfl | rfl) | rfl
        · decide
        · exact (options_token_sane _ _ hthread).1
        · exact (options_token_sane _ _ hint).1
        · exact (options_token_sane _ _ hlib).1
        · exact (options_token_sane _ _ hbtype).1
        · exact (options_token_sane _ _ har).1
        · decide
      rw [if_pos (by decide), hfilter]
      simp [winToks]
    rw [hname, parse_intercalate_toks _ (winToksPy_ne_nil _ _ _ _ _) ?hopt
      (winToksPy_nodup _ _ _ _ _)]
    case hopt =>
      intro p hpmem
      simp only [winToks, List.mem_append, List.mem_cons,
        List.not_mem_nil, or_false] at hpmem
      rcases hpmem with (rfl | rfl | rfl | rfl | rfl | rfl) | rfl
      · decide
      · exact hthread
      · exact hint
      · exact hlib
      · exact hbtype
      · exact har
      · decide
    have hcompiler : (setAll emptyConfig
        (winToks thread int_s lib btype ar
          ++ [(Category.build_python, "python")])).get .compiler = "empty" := by
      rw [get_setAll_not_mem (winToksPy_compiler_not_mem _ _ _ _ _), Config.get_emptyConfig]
    have hlibeq : (setAll emptyConfig
        (winToks thread int_s lib btype ar
          ++ [(Category.build_python, "python")])).get .lib_type = lib :=
      get_setAll_mem (winToksPy_nodup _ _ _ _ _) (by simp [winToks]) emptyConfig
    have hlibne : lib ≠ "static" := by
      simpa [winSkip] using hns
    exact postValidate_wellFormed (fun _ => hcompiler)
      (fun hand => hlibne (hlibeq.symm.trans hand.1))

theorem generate_linuxName_ok {x : LinuxCombo} (hx : x ∈ linuxCombos)
    (hns : linuxSkip x = false) :
    ∃ doc, generate_preset (linuxName x) = .ok doc := by
  obtain ⟨cfg, hcfg⟩ := parse_linuxName_ok hx hns
  refine ⟨presetDoc (linuxName x) cfg, ?_⟩
  unfold generate_preset
  rw [hcfg]

theorem generate_winName_ok {x : WinCombo} (hx : x ∈ winCombos)
    (hns : winSkip x = false) :
    ∃ doc, generate_preset (winName x) = .ok doc := by
  obtain ⟨cfg, hcfg⟩ := parse_winName_ok hx hns
  refine ⟨presetDoc (winName x) cfg, ?_⟩
  unfold generate_preset
  rw [hcfg]

/-! ### Behaviour of the batch loop -/

/-- Case analysis of one loop-body execution, given that a non-skipped
candidate's document generation succeeds (so `SystemExit` is unreachable):
the candidate is either skipped, stopped on the limit, or processed, and the
processed case changes the observable fields in the stated way. -/
theorem comboStep_result {α : Type} (io : String → Option String) (d : Bool)
    (lim : Option Int) (skip : α → Bool) (name : α → String) (s : BatchState) (x : α)
    (hok : skip x = false → ∃ doc, generate_preset (name x) = .ok doc) :
    (skip x = true ∧ comboStep io d lim skip name s x
        = .next { s with skipped := s.skipped + 1 })
    ∨ (skip x = false ∧ limitTruthy lim = true ∧ ((s.total + 1 : Nat) : Int) > lim.getD 0
        ∧ comboStep io d lim skip name s x = .stop { s with total := s.total + 1 })
    ∨ (skip x = false ∧ ¬(limitTruthy lim = true ∧ ((s.total + 1 : Nat) : Int) > lim.getD 0)
        ∧ ∃ s', comboStep io d lim skip name s x = .next s'
          ∧ s'.total = s.total + 1
          ∧ s'.attempted = s.attempted ++ [name x]
          ∧ s'.skipped = s.skipped
          ∧ s'.errors = s.errors ++ (if d then [] else (io (name x)).toList)) := by
  by_cases hsk : skip x = true
  · refine Or.inl ⟨hsk, ?_⟩
    unfold comboStep
    rw [if_pos hsk]
  · have hsk' : skip x = false := by simpa using hsk
    by_cases hguard : limitTruthy lim = true ∧ ((s.total + 1 : Nat) : Int) > lim.getD 0
    · refine Or.inr (Or.inl ⟨hsk', hguard.1, hguard.2, ?_⟩)
      unfold comboStep doGenerate
      rw [if_neg hsk]
      rw [if_pos hguard]
    · refine Or.inr (Or.inr ⟨hsk', hguard, ?_⟩)
      unfold comboStep doGenerate
      rw [if_neg hsk]
      rw [if_neg hguard]
      by_cases hd : d = true
      · rw [if_pos hd, hd]
        exact ⟨_, rfl, rfl, rfl, rfl, by simp⟩
      · have hd' : d = false := by simpa using hd
        rw [if_neg hd, hd']
        obtain ⟨doc, hdoc⟩ := hok hsk'
        unfold single_preset_run
        rw [hdoc]
        rcases hio : io (name x) with _ | msg
        · exact ⟨_, rfl, rfl, rfl, rfl, by simp [hio]⟩
        · exact ⟨_, rfl, rfl, rfl, rfl, by simp [hio]⟩

/-- An uncaught `SystemExit` can never happen when every non-skipped
candidate generates successfully. -/
theorem runCombos_no_fatal {α : Type} (io : String → Option String) (d : Bool)
    (lim : Option Int) (skip : α → Bool) (name : α → String) (l : List α) :
    ∀ s : BatchState,
      (∀ x ∈ l, skip x = false → ∃ doc, generate_preset (name x) = .ok doc) →
      ∃ s', runCombos (comboStep io d lim skip name) l s = .done s' := by
  induction l with
  | nil =>
    intro s _
    exact ⟨s, rfl⟩
  | cons x xs ih =>
    intro s hparse
    rcases comboStep_result io d lim skip name s x
        (hparse x (List.mem_cons_self _ _)) with ⟨_, hstep⟩ | ⟨_, _, _, hstep⟩ |
      ⟨_, _, s1, hstep, _, _, _, _⟩
    · obtain ⟨s', hs'⟩ := ih _ (fun y hy => hparse y (List.mem_cons_of_mem _ hy))
      exact ⟨s', by rw [runCombos, hstep]; exact hs'⟩
    · exact ⟨_, by rw [runCombos, hstep]⟩
    · obtain ⟨s', hs'⟩ := ih s1 (fun y hy => hparse y (List.mem_cons_of_mem _ hy))
      exact ⟨s', by rw [runCombos, hstep]; exact hs'⟩

/-- With a falsy limit the loop processes every candidate: the attempted
names are exactly the non-skipped names in order, the counter counts them,
and the recorded errors are exactly the oracle's failures (none in dry-run
mode). -/
theorem runCombos_noLimit {α : Type} (io : String → Option String) (d : Bool)
    {lim : Option Int} (hlim : limitTruthy lim = false)
    (skip : α → Bool) (name : α → String) (l : List α) :
    ∀ s : BatchState,
      (∀ x ∈ l, skip x = false → ∃ doc, generate_preset (name x) = .ok doc) →
      ∃ s', runCombos (comboStep io d lim skip name) l s = .done s'
        ∧ s'.attempted = s.attempted ++ (l.filter (fun c => !skip c)).map name
        ∧ s'.total = s.total + ((l.filter (fun c => !skip c)).map name).length
        ∧ s'.errors = s.errors ++ (if d then []
            else ((l.filter (fun c => !skip c)).map name).filterMap io) := by
  induction l with
  | nil =>
    intro s _
    exact ⟨s, rfl, by simp, by simp, by simp⟩
  | cons x xs ih =>
    intro s hparse
    rcases comboStep_result io d lim skip name s x
        (hparse x (List.mem_cons_self _ _)) with ⟨hsk, hstep⟩ | ⟨_, htruthy, _, _⟩ |
      ⟨hsk, _, s1, hstep, htot, hatt, _, herr⟩
    · obtain ⟨s', hs', ha, ht, he⟩ := ih _ (fun y hy => hparse y (List.mem_cons_of_mem _ hy))
      refine ⟨s', by rw [runCombos, hstep]; exact hs', ?_, ?_, ?_⟩
      · rw [ha, List.filter_cons_of_neg (by simp [hsk])]
      · rw [ht, List.filter_cons_of_neg (by simp [hsk])]
      · rw [he, List.filter_cons_of_neg (by simp [hsk])]
    · rw [hlim] at htruthy
      cases htruthy
    · obtain ⟨s', hs', ha, ht, he⟩ := ih s1 (fun y hy => hparse y (List.mem_cons_of_mem _ hy))
      refine ⟨s', by rw [runCombos, hstep]; exact hs', ?_, ?_, ?_⟩
      · rw [ha, hatt, List.filter_cons_of_pos (by simp [hsk])]
        simp
      · rw [ht, htot, List.filter_cons_of_pos (by simp [hsk])]
        simp
        omega
      · rw [he, herr, List.filter_cons_of_pos (by simp [hsk])]
        by_cases hd : d = true
        · simp [hd]
        · have hd' : d = false := by simpa using hd
          rcases hio : io (name x) with _ | msg <;>
            simp [hd', List.filterMap_cons, hio, Option.toList]

/-- With limit `N ≥ 1` the loop attempts exactly the first `N` non-skipped
candidates (prefix semantics), and the counter is cut off at `N + 1` when
the limit interrupts the loop. -/
theorem runCombos_limited {α : Type} (io : String → Option String) (d : Bool)
    (N : Int) (hN : 1 ≤ N) (skip : α → Bool) (name : α → String) (l : List α) :
    ∀ s : BatchState,
      (∀ x ∈ l, skip x = false → ∃ doc, generate_preset (name x) = .ok doc) →
      ((s.attempted.length : Int) = (s.total : Int)) → ((s.total : Int) ≤ N) →
      ∃ s', runCombos (comboStep io d (some N) skip name) l s = .done s'
        ∧ s'.attempted
            = (s.attempted ++ (l.filter (fun c => !skip c)).map name).take N.toNat
        ∧ (s'.total : Int)
            = min ((s.total : Int) + (((l.filter (fun c => !skip c)).map name).length : Int))
                (N + 1) := by
  induction l with
  | nil =>
    intro s _ hinv hle
    refine ⟨s, rfl, ?_, ?_⟩
    · simp only [List.filter_nil, List.map_nil, List.append_nil]
      rw [List.take_of_length_le (by omega)]
    · simp only [List.filter_nil, List.map_nil, List.length_nil, Nat.cast_zero, Int.add_zero]
      omega
  | cons x xs ih =>
    intro s hparse hinv hle
    rcases comboStep_result io d (some N) skip name s x
        (hparse x (List.mem_cons_self _ _)) with ⟨hsk, hstep⟩ | ⟨hsk, _, hgt, hstep⟩ |
      ⟨hsk, hng, s1, hstep, htot, hatt, _, _⟩
    · obtain ⟨s', hs', ha, ht⟩ :=
        ih { s with skipped := s.skipped + 1 }
          (fun y hy => hparse y (List.mem_cons_of_mem _ hy)) hinv hle
      refine ⟨s', by rw [runCombos, hstep]; exact hs', ?_, ?_⟩
      · rw [ha, List.filter_cons_of_neg (by simp [hsk])]
      · rw [ht, List.filter_cons_of_neg (by simp [hsk])]
    · have hgetd : ((some N : Option Int).getD 0) = N := rfl
      rw [hgetd] at hgt
      refine ⟨_, by rw [runCombos, hstep], ?_, ?_⟩
      · show s.attempted
            = (s.attempted ++ (((x :: xs).filter (fun c => !skip c)).map name)).take N.toNat
        have hlen : s.attempted.length = N.toNat := by omega
        exact (List.take_left' hlen).symm
      · show ((s.total + 1 : Nat) : Int)
            = min ((s.total : Int) + ((((x :: xs).filter (fun c => !skip c)).map name).length : Int))
                (N + 1)
        rw [List.filter_cons_of_pos (by simp [hsk]), List.map_cons, List.length_cons]
        push_cast
        omega
    · have htr : limitTruthy (some N) = true := by
        simp only [limitTruthy, bne_iff_ne, ne_eq, decide_eq_true_eq]
        omega
      have hle1 : ((s.total + 1 : Nat) : Int) ≤ N := by
        have hngt : ¬(((s.total + 1 : Nat) : Int) > ((some N : Option Int).getD 0)) :=
          fun hgt => hng ⟨htr, hgt⟩
        simpa using hngt
      obtain ⟨s', hs', ha, ht⟩ :=
        ih s1 (fun y hy => hparse y (List.mem_cons_of_mem _ hy))
          (by rw [hatt, htot]; simp; omega)
          (by rw [htot]; exact_mod_cast hle1)
      refine ⟨s', by rw [runCombos, hstep]; exact hs', ?_, ?_⟩
      · rw [ha, hatt, List.filter_cons_of_pos (by simp [hsk]), List.map_cons]
        simp [List.append_assoc]
      · rw [ht, htot, List.filter_cons_of_pos (by simp [hsk]), List.map_cons, List.length_cons]
        push_cast
        omega

theorem linux_parse_all :
    ∀ x ∈ linuxCombos, linuxSkip x = false →
      ∃ doc, generate_preset (linuxName x) = .ok doc :=
  fun _ hx hns => generate_linuxName_ok hx hns

theorem win_parse_all :
    ∀ x ∈ winCombos, winSkip x = false →
      ∃ doc, generate_preset (winName x) = .ok doc :=
  fun _ hx hns => generate_winName_ok hx hns

/-- The unlimited batch run completes, attempts every non-skipped candidate
in order, and records exactly the oracle's failures as per-item errors. -/
theorem generate_all_none_spec (io : String → Option String) (d : Bool) :
    ∃ s, generate_all_presets io d none = .done s
      ∧ s.attempted = allBatchNames
      ∧ s.errors = (if d then [] else allBatchNames.filterMap io) := by
  obtain ⟨s1, h1, ha1, ht1, he1⟩ :=
    @runCombos_noLimit LinuxCombo io d none rfl linuxSkip linuxName linuxCombos
      batchInit linux_parse_all
  rw [batchInit_attempted] at ha1
  rw [batchInit_errors] at he1
  obtain ⟨s2, h2, ha2, ht2, he2⟩ :=
    @runCombos_noLimit WinCombo io d none rfl winSkip winName winCombos s1 win_parse_all
  have hval : generate_all_presets io d none
      = runCombos (comboStep io d none winSkip winName) winCombos s1 := by
    unfold generate_all_presets
    rw [h1]
    exact if_neg (fun hand => absurd hand.1 (by decide))
  refine ⟨s2, by rw [hval]; exact h2, ?_, ?_⟩
  · rw [ha2, ha1]
    simp [allBatchNames]
  · rw [he2, he1]
    by_cases hd : d = true
    · simp [hd]
    · have hd' : d = false := by simpa using hd
      simp [hd', allBatchNames]

/-! ### C2: failures in the single-preset path are caught per item -/

/-- **C2.** In batch mode, whatever per-item failures the file-system oracle
injects, the batch run completes (it is never aborted): every failure
raised while running the single-preset path for a candidate combination is
caught and recorded as a per-item error, enumeration continues through all
remaining combinations, and the recorded errors are exactly the failing
candidates' messages.  (A parse failure would escape the `except Exception`
as `SystemExit`, but no batch-generated candidate can produce one, as the
completion proof shows.) -/
theorem C2_batch_catches_failures (io : String → Option String) :
    (∀ (d : Bool) (lim : Option Int), (generate_all_presets io d lim).isDone = true) ∧
    ∃ s, generate_all_presets io false none = .done s
      ∧ s.attempted = allBatchNames
      ∧ s.errors = allBatchNames.filterMap io := by
  constructor
  · intro d lim
    obtain ⟨s1, h1⟩ :=
      runCombos_no_fatal io d lim linuxSkip linuxName linuxCombos batchInit
        linux_parse_all
    obtain ⟨s2, h2⟩ :=
      runCombos_no_fatal io d lim winSkip winName winCombos s1 win_parse_all
    have hval : generate_all_presets io d lim
        = (if limitTruthy lim ∧ ((s1.total : Int) ≥ lim.getD 0) then BatchResult.done s1
           else runCombos (comboStep io d lim winSkip winName) winCombos s1) := by
      unfold generate_all_presets
      rw [h1]
    rw [hval]
    by_cases hmid : limitTruthy lim ∧ ((s1.total : Int) ≥ lim.getD 0)
    · rw [if_pos hmid]
      rfl
    · rw [if_neg hmid, h2]
      rfl
  · obtain ⟨s, hs, ha, he⟩ := generate_all_none_spec io false
    exact ⟨s, hs, ha, by simpa using he⟩

/-! ### C5: the limit caps the attempted candidates -/

/-- **C5.** With `limit = N` for a positive integer `N`, the batch attempts
exactly the first `N` candidates of the enumeration — so at most `N`
combinations are attempted in total across both platforms, the loop stops
mid-platform on reaching the limit, and (whenever `N` falls inside the
first platform's share) no candidate of the second platform is attempted. -/
theorem C5_limit_caps_attempts (io : String → Option String) (d : Bool)
    (N : Int) (hN : 1 ≤ N) :
    ((generate_all_presets io d (some N)).state).attempted = allBatchNames.take N.toNat ∧
    (((generate_all_presets io d (some N)).state).attempted).length ≤ N.toNat := by
  obtain ⟨s1, h1, ha1, ht1⟩ :=
    runCombos_limited io d N hN linuxSkip linuxName linuxCombos batchInit
      linux_parse_all (by rw [batchInit_attempted, batchInit_total]; simp)
      (by rw [batchInit_total]; omega)
  rw [batchInit_attempted] at ha1
  rw [batchInit_total] at ht1
  have hval : generate_all_presets io d (some N)
      = (if limitTruthy (some N) ∧ ((s1.total : Int) ≥ (some N : Option Int).getD 0)
         then BatchResult.done s1
         else runCombos (comboStep io d (some N) winSkip winName) winCombos s1) := by
    unfold generate_all_presets
    rw [h1]
  have hmain : ((generate_all_presets io d (some N)).state).attempted
      = allBatchNames.take N.toNat := by
    rw [hval]
    by_cases hmid : limitTruthy (some N) ∧ ((s1.total : Int) ≥ (some N : Option Int).getD 0)
    · rw [if_pos hmid]
      show s1.attempted = allBatchNames.take N.toNat
      have hge : (s1.total : Int) ≥ N := by simpa using hmid.2
      rw [ht1] at hge
      have hNL : N.toNat
          ≤ ((linuxCombos.filter (fun c => !linuxSkip c)).map linuxName).length := by
        omega
      rw [ha1]
      simp only [List.nil_append]
      show ((linuxCombos.filter (fun c => !linuxSkip c)).map linuxName).take N.toNat
        = allBatchNames.take N.toNat
      unfold allBatchNames
      rw [List.take_append_eq_append_take,
        show N.toNat - ((linuxCombos.filter (fun c => !linuxSkip c)).map linuxName).length = 0
          from by omega,
        List.take_zero, List.append_nil]
    · rw [if_neg hmid]
      have htr : limitTruthy (some N) = true := by
        simp only [limitTruthy, bne_iff_ne, ne_eq, decide_eq_true_eq]
        omega
      have hlt : (s1.total : Int) < N := by
        have hnge : ¬((s1.total : Int) ≥ (some N : Option Int).getD 0) :=
          fun hge => hmid ⟨htr, hge⟩
        simpa using hnge
      have htotL : (s1.total : Int)
          = (((linuxCombos.filter (fun c => !linuxSkip c)).map linuxName).length : Int) := by
        rw [ht1]
        rw [ht1] at hlt
        omega
      have hattfull : s1.attempted
          = (linuxCombos.filter (fun c => !linuxSkip c)).map linuxName := by
        rw [ha1]
        simp only [List.nil_append]
        exact List.take_of_length_le (by omega)
      obtain ⟨s2, h2, ha2, ht2⟩ :=
        runCombos_limited io d N hN winSkip winName winCombos s1 win_parse_all
          (by rw [hattfull]; exact_mod_cast htotL.symm)
          (by omega)
      rw [h2]
      show s2.attempted = allBatchNames.take N.toNat
      rw [ha2, hattfull]
      rfl
  refine ⟨hmain, ?_⟩
  rw [hmain, List.length_take]
  exact Nat.min_le_left _ _

theorem C5_limit_caps_attempts_witness :
    (1 : Int) ≤ 1 ∧
    (((generate_all_presets (fun _ => none) true (some 1)).state).attempted
        = allBatchNames.take (1 : Int).toNat ∧
     (((generate_all_presets (fun _ => none) true (some 1)).state).attempted).length
        ≤ (1 : Int).toNat) :=
  ⟨by decide, C5_limit_caps_attempts (fun _ => none) true 1 (by decide)⟩

/-! ### C10: a zero limit does not limit -/

/-- **C10.** `limit = 0` is falsy in Python, so passing it disables the
limit check entirely: the run is identical to passing no limit, and the
full cross-product of both platforms' combinations is enumerated. -/
theorem C10_zero_limit_no_limit (io : String → Option String) :
    (∀ d : Bool, generate_all_presets io d (some 0) = generate_all_presets io d none) ∧
    ∃ s, generate_all_presets io false (some 0) = .done s ∧ s.attempted = allBatchNames := by
  have hdg : ∀ (d : Bool) (s : BatchState) (pname : String),
      doGenerate io d (some 0) s pname = doGenerate io d none s pname := by
    intro d s pname
    have h0 : ¬(limitTruthy (some 0) = true
        ∧ ((s.total + 1 : Nat) : Int) > (some 0 : Option Int).getD 0) :=
      fun hand => absurd hand.1 (by decide)
    have hn : ¬(limitTruthy none = true
        ∧ ((s.total + 1 : Nat) : Int) > (none : Option Int).getD 0) :=
      fun hand => absurd hand.1 (by decide)
    unfold doGenerate
    rw [if_neg h0, if_neg hn]
  have hstep : ∀ {α : Type} (skip : α → Bool) (name : α → String) (d : Bool),
      comboStep io d (some 0) skip name = comboStep io d none skip name := by
    intro α skip name d
    funext s x
    unfold comboStep
    by_cases hsk : skip x = true
    · rw [if_pos hsk, if_pos hsk]
    · rw [if_neg hsk, if_neg hsk, hdg d s (name x)]
  have hEq : ∀ d : Bool,
      generate_all_presets io d (some 0) = generate_all_presets io d none := by
    intro d
    unfold generate_all_presets
    rw [hstep linuxSkip linuxName d, hstep winSkip winName d]
    cases hrun : runCombos (comboStep io d none linuxSkip linuxName) linuxCombos
        batchInit with
    | done s =>
      show (if limitTruthy (some 0) = true
            ∧ ((s.total : Nat) : Int) ≥ (some 0 : Option Int).getD 0
          then BatchResult.done s
          else runCombos (comboStep io d none winSkip winName) winCombos s)
        = (if limitTruthy none = true
            ∧ ((s.total : Nat) : Int) ≥ (none : Option Int).getD 0
          then BatchResult.done s
          else runCombos (comboStep io d none winSkip winName) winCombos s)
      rw [if_neg (fun hand => absurd hand.1 (by decide)),
        if_neg (fun hand => absurd hand.1 (by decide))]
    | fatal s =>
      rfl
  refine ⟨hEq, ?_⟩
  obtain ⟨s, hs, ha, -⟩ := generate_all_none_spec io false
  exact ⟨s, by rw [hEq]; exact hs, ha⟩

/-! ### Concrete sanity checks of the parser on the spec's examples -/

theorem parse_win_gcc_incompatible :
    parse_preset_name "win-gcc" = .error .incompatiblePlatformCompiler := by decide

theorem parse_static_python_conflict :
    parse_preset_name "linux-clang-static-python" = .error .staticPythonConflict := by decide
